import Mathlib

/-!
Verification of `src/devcontainer/devcontainer.py` (a launcher for development
containers) against its natural-language specification.

Strings are modelled as `List Char` (the character sequence of a Python `str`),
environment snapshots (`dict(os.environ)`) as association lists
`List (List Char × List Char)` in iteration order, and byte strings as
`List Nat` with entries below 256.  All functions are executable structural
recursions so that concrete runs can be settled by `decide`.
-/

set_option autoImplicit false

/-- Does `pat` occur as a contiguous substring of the second list?  This models
Python's `val.find(pat) >= 0` test used at line 35 of the source. -/
def containsSub (pat : List Char) : List Char → Bool
  | [] => pat.isPrefixOf []
  | c :: rest => pat.isPrefixOf (c :: rest) || containsSub pat rest

/-- Is there an opening brace that is followed (anywhere later) by a closing
brace?  This is exactly the condition under which the Python regex
`\x7b[^\x7d]*\x7d` (an opening brace, a run of non-closing-brace characters,
a closing brace) has a match in the string, i.e. the string contains a
bracketed `NAME`-token. -/
def hasBracedToken : List Char → Bool
  | [] => false
  | c :: rest => ((c == '{') && rest.contains '}') || hasBracedToken rest

/-- No brace character of either kind occurs in the string. -/
def braceFree (s : List Char) : Bool :=
  s.all (fun c => !(c == '{') && !(c == '}'))

/-- One scanning step per unit of fuel; replaces every non-overlapping
occurrence of `pat`, scanning left to right and never rescanning replacement
text, as Python's `str.replace` does.  Each step consumes at least one
character of the input, so `fuel = length of the input` is always enough. -/
def replaceAllAux (pat rep : List Char) : Nat → List Char → List Char
  | _, [] => []
  | 0, s => s
  | fuel + 1, c :: rest =>
    if pat.isPrefixOf (c :: rest) then
      rep ++ replaceAllAux pat rep fuel (List.drop (pat.length - 1) rest)
    else
      c :: replaceAllAux pat rep fuel rest

/-- Python `s.replace(pat, rep)`.  The source only ever calls `replace` with a
non-empty pattern; for an empty pattern we return the string unchanged. -/
def replaceAll (pat rep s : List Char) : List Char :=
  if pat.isEmpty then s else replaceAllAux pat rep s.length s

/-- The suffix strictly after the first closing brace, if any. -/
def dropAfterRB : List Char → Option (List Char)
  | [] => none
  | c :: rest => if c == '}' then some rest else dropAfterRB rest

/-- Fuelled scan implementing Python's
`re.sub(r"\x7b[^\x7d]*\x7d", "", val)` (source line 38): at each position, a
leftmost match starts at an opening brace that has a later closing brace, it
extends to the first such closing brace, the match is deleted and scanning
resumes after it; every other character is kept. -/
def removeBracedAux : Nat → List Char → List Char
  | _, [] => []
  | 0, s => s
  | fuel + 1, c :: rest =>
    if c == '{' then
      match dropAfterRB rest with
      | some suf => removeBracedAux fuel suf
      | none => c :: removeBracedAux fuel rest
    else
      c :: removeBracedAux fuel rest

def removeBraced (s : List Char) : List Char :=
  removeBracedAux s.length s

/-- The pattern `"${localEnv:"` rewritten at source line 32 (written out
character by character because it contains an unmatched opening brace). -/
def localEnvPat : List Char :=
  '$' :: '{' :: "localEnv:".data

/-- One iteration of the loop at source lines 34-36: for the environment entry
`kv`, if the bracketed key occurs in the value being built, replace every
occurrence by the entry's value. -/
def substStep (v : List Char) (kv : List Char × List Char) : List Char :=
  if containsSub ('{' :: (kv.1 ++ ['}'])) v then
    replaceAll ('{' :: (kv.1 ++ ['}'])) kv.2 v
  else
    v

/-- Source lines 30-39 (`substitute_env`): normalize the `${localEnv:` prefix
form to a plain brace form, substitute every defined environment variable
whose bracketed name occurs, then strip all remaining bracketed tokens. -/
def substitute_env (env : List (List Char × List Char)) (val : List Char) :
    List Char :=
  let v1 := replaceAll localEnvPat ['{'] val
  let v2 := env.foldl substStep v1
  removeBraced v2

/-- The body of the loop at source lines 120-123 for loop index `i`
(`k + 1` indices still to process, `n` the fixed list length):
if entry `i` contains a space, entry `i - 1` — which for `i = 0` is entry
`n - 1` by Python's negative indexing — becomes `entry[i-1] ++ "=" ++
entry[i]`, and entry `i` is set to the empty string. -/
def coalescePass (n : Nat) : Nat → List (List Char) → List (List Char)
  | 0, a => a
  | k + 1, a =>
    let i := n - (k + 1)
    let a1 :=
      if (a.getD i []).contains ' ' then
        let j := if i = 0 then n - 1 else i - 1
        (a.set j ((a.getD j []) ++ '=' :: (a.getD i []))).set i []
      else a
    coalescePass n k a1

/-- The in-place coalescing loop of source lines 119-123, as a function. -/
def coalesce (args : List (List Char)) : List (List Char) :=
  coalescePass args.length args.length args

/-- Source lines 119-129 plus the `if arg` filtering applied when the final
command list is assembled (lines 152-155): coalesce, substitute environment
variables into every entry, and drop entries that became empty. -/
def runArgsResolve (env : List (List Char × List Char))
    (args : List (List Char)) : List (List Char) :=
  ((coalesce args).map (substitute_env env)).filter (fun a => !a.isEmpty)

/-- Decimal rendering of a port number, as Python f-string formatting of an
int renders it. -/
def natStr (n : Nat) : List Char := (Nat.repr n).data

/-- The string `f'\x7bport\x7d:\x7bport\x7d'` of source line 89. -/
def portPair (p : Nat) : List Char := natStr p ++ ':' :: natStr p

/-- The loop at source lines 86-89: for each forwarded port, append `-p` and
then `port:port` to the accumulated argument list. -/
def portArgs (ports : List Nat) : List (List Char) :=
  ports.foldl (fun acc p => (acc ++ [['-', 'p']]) ++ [portPair p]) []

/-- Python `s.split(sep)` for a single-character separator: the pieces of the
string between the occurrences of the separator (always at least one piece).
The `[] => [[c]]` inner branch is unreachable: the result is never empty. -/
def pySplit (sep : Char) : List Char → List (List Char)
  | [] => [[]]
  | c :: rest =>
    match pySplit sep rest with
    | [] => [[c]]
    | h :: t => if c == sep then [] :: h :: t else (c :: h) :: t

/-- Source lines 51-52 (`strip_latest`):
`tag if not tag.endswith(":latest") else tag.split(":")[0]`. -/
def strip_latest (tag : List Char) : List Char :=
  if !((":latest".data).isSuffixOf tag) then tag
  else (pySplit ':' tag).headD []

/-- Modelled from the documented interface of Python's standard-library
`hashlib.md5(data).hexdigest()`, called at source lines 134-135 on the build
file's raw bytes.  `hashlib` is an external library, not part of this
repository; the model keeps exactly what the theorems below use and what
every fixed-width content hash shares: the digest is a pure function of the
input bytes (determinism) and carries 128 bits, rendered as 32 hexadecimal
characters.  The MD5 compression function itself is abstracted by a plain
fold; the collision theorem below is proved generically for *every* function
into a 128-bit codomain, so nothing depends on this choice of body. -/
def md5bitsNat (bytes : List Nat) : Nat :=
  bytes.foldl (fun a b => (a * 257 + b) % 2 ^ 128) 0

def md5bits (bytes : List Nat) : Fin (2 ^ 128) :=
  ⟨md5bitsNat bytes % 2 ^ 128, Nat.mod_lt _ (by norm_num)⟩

/-- Lowercase hexadecimal digit, as `hexdigest` produces. -/
def hexChar (n : Nat) : Char :=
  if n < 10 then Char.ofNat (48 + n) else Char.ofNat (87 + n)

/-- A 128-bit value rendered as its 32 hexadecimal characters. -/
def hexdigest32 (x : Fin (2 ^ 128)) : List Char :=
  (List.range 32).map (fun i => hexChar (x.val / 16 ^ (31 - i) % 16))

/-- The Build Identity (`TAG` at source lines 134-135): the hex digest of the
build file's bytes. -/
def md5hexdigest (bytes : List Nat) : List Char :=
  hexdigest32 (md5bits bytes)

/-- Subprocess invocations that `main` can spawn (source lines 137-169): the
`docker images` listing, a `docker build` with an output tag, a file and the
build-argument fragment string, and the `docker run` of a target. -/
inductive Proc
  | imageList
  | build (tag file argstr : List Char)
  | run (target : List Char)
deriving DecidableEq

/-- The two failure modes of the target-resolution tail of `main`:
line 172's `Exception('No Docker image or file found.')`, and the Python
`NameError` that evaluating the undefined `DOCKERIMAGE` at line 162 raises
when `dockerFile` is present but falsy (empty), since line 114 only assigns
`DOCKERIMAGE` when `DOCKERFILE is None`. -/
inductive MainErr
  | targetUnresolved
  | nameError
deriving DecidableEq

/-- Python truthiness of an optional string: `None` and the empty string are
falsy. -/
def truthy : Option (List Char) → Bool
  | none => false
  | some s => !s.isEmpty

/-- Source lines 111-172, target resolution and subprocess plan: with a
truthy `dockerFile`, list images, build unless the Build Identity is already
among the `strip_latest`-normalized references, then run the tag; otherwise
with a truthy `image`, run it directly; with neither, raise. -/
def mainPlan (dockerFile image : Option (List Char)) (fileBytes : List Nat)
    (existing : List (List Char)) (argstr : List Char) :
    List Proc × Option MainErr :=
  if truthy dockerFile then
    let tag := md5hexdigest fileBytes
    if (existing.map strip_latest).contains tag then
      ([Proc.imageList, Proc.run tag], none)
    else
      ([Proc.imageList, Proc.build tag (dockerFile.getD []) argstr,
        Proc.run tag], none)
  else
    match dockerFile with
    | some _ => ([], some MainErr.nameError)
    | none =>
      if truthy image then ([Proc.run (image.getD [])], none)
      else ([], some MainErr.targetUnresolved)

/-- Source lines 159-160 and 168-169: the spawned child is awaited —
`process.wait()` returns the child's exit code — but the value is discarded
and `main` then falls off its end, returning Python `None` for every child
exit code. -/
def mainReturn (childExit : Int) : Option Int := none

/-- Python entry-point semantics: the console script runs
`sys.exit(devcontainer())`; a `None` return value exits with status 0, an
integer return value with that integer. -/
def invocationExit (childExit : Int) : Int :=
  match mainReturn childExit with
  | none => 0
  | some n => n

/-- The base-256 digit expansion: 17 bytes encoding a number below 256^17. -/
def encBytes (x : Nat) : List Nat :=
  (List.range 17).map (fun j => x / 256 ^ j % 256)

/-- Reassemble a little-endian byte list into a number. -/
def decBytes (l : List Nat) : Nat :=
  l.foldr (fun d acc => d + 256 * acc) 0

theorem ipo_append (p s : List Char) : p.isPrefixOf (p ++ s) = true := by
  induction p with
  | nil => simp [List.isPrefixOf]
  | cons a as ih => simp [List.isPrefixOf, ih]

theorem ipo_subset {p s : List Char} (h : p.isPrefixOf s = true) :
    ∀ c ∈ p, c ∈ s := by
  induction p generalizing s with
  | nil => intro c hc; cases hc
  | cons a as ih =>
    cases s with
    | nil => cases h
    | cons b bs =>
      simp only [List.isPrefixOf, Bool.and_eq_true, beq_iff_eq] at h
      intro c hc
      rcases List.mem_cons.mp hc with hca | hcs
      · exact hca ▸ h.1 ▸ List.mem_cons_self _ _
      · exact List.mem_cons_of_mem _ (ih h.2 c hcs)

theorem replaceAllAux_id (pat rep : List Char) :
    ∀ (fuel : Nat) (s : List Char), containsSub pat s = false →
      replaceAllAux pat rep fuel s = s := by
  intro fuel
  induction fuel with
  | zero => intro s h; cases s <;> rfl
  | succ n ih =>
    intro s h
    cases s with
    | nil => rfl
    | cons c rest =>
      simp only [containsSub, Bool.or_eq_false_iff] at h
      simp [replaceAllAux, h.1, ih rest h.2]

theorem replaceAll_id (pat rep : List Char) (s : List Char)
    (h : containsSub pat s = false) : replaceAll pat rep s = s := by
  unfold replaceAll
  by_cases hp : pat.isEmpty
  · simp [hp]
  · simp [hp, replaceAllAux_id pat rep s.length s h]

theorem hasBracedToken_of_containsSub {t s : List Char}
    (h : containsSub ('{' :: (t ++ ['}'])) s = true) : hasBracedToken s = true := by
  induction s with
  | nil => simp [containsSub, List.isPrefixOf] at h
  | cons c rest ih =>
    simp only [containsSub, Bool.or_eq_true] at h
    rcases h with hpre | hrest
    · cases rest with
      | nil =>
        exfalso
        simp only [List.isPrefixOf, Bool.and_eq_true] at hpre
        rcases t with _ | ⟨d, t2⟩ <;> simp [List.isPrefixOf] at hpre
      | cons b bs =>
        simp only [List.isPrefixOf, Bool.and_eq_true, beq_iff_eq] at hpre
        have hcb : '}' ∈ b :: bs :=
          ipo_subset hpre.2 '}' (by simp)
        simp only [hasBracedToken, Bool.or_eq_true, Bool.and_eq_true, beq_iff_eq]
        exact Or.inl ⟨hpre.1.symm, by simpa [List.contains] using hcb⟩
    · simp [hasBracedToken, ih hrest]

theorem foldl_substStep_id (env : List (List Char × List Char)) (v : List Char)
    (h : hasBracedToken v = false) : List.foldl substStep v env = v := by
  induction env with
  | nil => rfl
  | cons kv tl ih =>
    have hstep : substStep v kv = v := by
      unfold substStep
      have : containsSub ('{' :: (kv.1 ++ ['}'])) v = false := by
        cases hc : containsSub ('{' :: (kv.1 ++ ['}'])) v with
        | false => rfl
        | true => rw [hasBracedToken_of_containsSub hc] at h; cases h
      simp [this]
    simpa [hstep] using ih

theorem dropAfterRB_none {s : List Char} (h : '}' ∉ s) :
    dropAfterRB s = none := by
  induction s with
  | nil => rfl
  | cons c rest ih =>
    simp only [List.mem_cons, not_or] at h
    have hc : (c == '}') = false := beq_eq_false_iff_ne.mpr (Ne.symm h.1)
    simp [dropAfterRB, hc, ih h.2]

theorem removeBracedAux_id :
    ∀ (fuel : Nat) (s : List Char), hasBracedToken s = false →
      removeBracedAux fuel s = s := by
  intro fuel
  induction fuel with
  | zero => intro s h; cases s <;> rfl
  | succ n ih =>
    intro s h
    cases s with
    | nil => rfl
    | cons c rest =>
      simp only [hasBracedToken, Bool.or_eq_false_iff, Bool.and_eq_false_iff] at h
      by_cases hc : c = '{'
      · have hrb : '}' ∉ rest := by
          rcases h.1 with h1 | h1
          · exact absurd h1 (by simp [hc])
          · simpa using h1
        simp [removeBracedAux, hc, dropAfterRB_none hrb, ih rest h.2]
      · simp [removeBracedAux, hc, ih rest h.2]

theorem removeBraced_id (s : List Char) (h : hasBracedToken s = false) :
    removeBraced s = s :=
  removeBracedAux_id s.length s h

theorem substituteEnv_id (env : List (List Char × List Char)) (val : List Char)
    (h1 : containsSub localEnvPat val = false)
    (h2 : hasBracedToken val = false) : substitute_env env val = val := by
  show removeBraced (List.foldl substStep (replaceAll localEnvPat ['{'] val) env) = val
  rw [replaceAll_id localEnvPat ['{'] val h1, foldl_substStep_id env val h2,
    removeBraced_id val h2]

theorem braceFree_mem {s : List Char} {c : Char} (h : braceFree s = true)
    (hm : c ∈ s) : c ≠ '{' ∧ c ≠ '}' := by
  have hall := (List.all_eq_true.mp h) c hm
  constructor <;> intro he <;> simp [he] at hall

theorem braceFree_tail {c : Char} {s : List Char} (h : braceFree (c :: s) = true) :
    braceFree s = true := by
  simp only [braceFree, List.all_cons, Bool.and_eq_true] at h
  exact h.2

theorem hbt_false_of_braceFree {s : List Char} (h : braceFree s = true) :
    hasBracedToken s = false := by
  induction s with
  | nil => rfl
  | cons c rest ih =>
    have hc := braceFree_mem h (List.mem_cons_self c rest)
    simp [hasBracedToken, ih (braceFree_tail h), beq_eq_false_iff_ne.mpr hc.1]

theorem containsSub_lb_false {t s : List Char} (h : braceFree s = true) :
    containsSub ('{' :: t) s = false := by
  induction s with
  | nil => simp [containsSub, List.isPrefixOf]
  | cons c rest ih =>
    have hc := braceFree_mem h (List.mem_cons_self c rest)
    have hpre : ('{' :: t).isPrefixOf (c :: rest) = false := by
      simp [List.isPrefixOf, beq_eq_false_iff_ne.mpr (Ne.symm hc.1)]
    simp [containsSub, hpre, ih (braceFree_tail h)]

theorem containsSub_append_lb {t s : List Char} :
    ∀ {pre : List Char}, braceFree pre = true →
      containsSub ('{' :: t) (pre ++ s) = containsSub ('{' :: t) s := by
  intro pre
  induction pre with
  | nil => intro _; rfl
  | cons c p ih =>
    intro h
    have hc := braceFree_mem h (List.mem_cons_self c p)
    have hpre : ('{' :: t).isPrefixOf (c :: (p ++ s)) = false := by
      simp [List.isPrefixOf, beq_eq_false_iff_ne.mpr (Ne.symm hc.1)]
    simp [containsSub, hpre, ih (braceFree_tail h)]

theorem ipo_key_false {suf : List Char} (hsuf : braceFree suf = true) :
    ∀ (k2 k1 : List Char), k1 ≠ k2 → braceFree k2 = true →
      (k1 ++ ['}']).isPrefixOf (k2 ++ '}' :: suf) = false := by
  intro k2
  induction k2 with
  | nil =>
    intro k1 hne _
    cases k1 with
    | nil => exact absurd rfl hne
    | cons d k1t =>
      by_cases hd : d = '}'
      · have hfall : (k1t ++ ['}']).isPrefixOf suf = false := by
          cases hp : (k1t ++ ['}']).isPrefixOf suf with
          | false => rfl
          | true =>
            have hmem : '}' ∈ suf := ipo_subset hp '}' (by simp)
            exact absurd rfl (braceFree_mem hsuf hmem).2
        simp [List.isPrefixOf, hd, hfall]
      · simp [List.isPrefixOf, beq_eq_false_iff_ne.mpr hd]
  | cons a k2t ih =>
    intro k1 hne hk2
    have ha := braceFree_mem hk2 (List.mem_cons_self a k2t)
    cases k1 with
    | nil => simp [List.isPrefixOf, beq_eq_false_iff_ne.mpr (Ne.symm ha.2)]
    | cons b k1t =>
      by_cases hb : b = a
      · have hnet : k1t ≠ k2t := fun he => hne (by rw [hb, he])
        simp [List.isPrefixOf, hb, ih k1t hnet (braceFree_tail hk2)]
      · simp [List.isPrefixOf, beq_eq_false_iff_ne.mpr hb]

theorem containsSub_other_key {pre k suf k1 : List Char}
    (hpre : braceFree pre = true) (hk : braceFree k = true)
    (hsuf : braceFree suf = true) (hne : k1 ≠ k) :
    containsSub ('{' :: (k1 ++ ['}'])) (pre ++ ('{' :: (k ++ ['}'])) ++ suf)
      = false := by
  have e1 : pre ++ ('{' :: (k ++ ['}'])) ++ suf = pre ++ ('{' :: (k ++ '}' :: suf)) := by
    simp
  rw [e1, containsSub_append_lb hpre]
  have hp1 : ('{' :: (k1 ++ ['}'])).isPrefixOf ('{' :: (k ++ '}' :: suf)) = false := by
    simp [List.isPrefixOf, ipo_key_false hsuf k k1 hne hk]
  have hp2 : containsSub ('{' :: (k1 ++ ['}'])) (k ++ '}' :: suf) = false := by
    rw [containsSub_append_lb hk]
    have hp3 : ('{' :: (k1 ++ ['}'])).isPrefixOf ('}' :: suf) = false := by
      simp [List.isPrefixOf]
    simp [containsSub, hp3, containsSub_lb_false hsuf]
  simp [containsSub, hp1, hp2]

theorem containsSub_occurrence (pat : List Char) : ∀ (pre suf : List Char),
    containsSub pat (pre ++ (pat ++ suf)) = true := by
  intro pre
  induction pre with
  | nil =>
    intro suf
    simp only [List.nil_append]
    cases hps : pat ++ suf with
    | nil =>
      have hpnil : pat = [] := by
        cases pat with
        | nil => rfl
        | cons a as => simp at hps
      simp [hpnil, containsSub, List.isPrefixOf]
    | cons c r =>
      have hp : pat.isPrefixOf (c :: r) = true := hps ▸ ipo_append pat suf
      simp [containsSub, hp]
  | cons c p ih =>
    intro suf
    simp [containsSub, ih suf]

theorem dropLenAppend {α : Type} (l1 l2 : List α) :
    List.drop l1.length (l1 ++ l2) = l2 := by
  induction l1 with
  | nil => rfl
  | cons a t ih => simp [ih]

theorem replaceAllAux_cons_neg (pat rep : List Char) (n : Nat) (c : Char)
    (rest : List Char) (h : pat.isPrefixOf (c :: rest) = false) :
    replaceAllAux pat rep (n + 1) (c :: rest)
      = c :: replaceAllAux pat rep n rest := by
  simp only [replaceAllAux]
  rw [if_neg (show ¬ pat.isPrefixOf (c :: rest) = true from by simp [h])]

theorem replaceAllAux_exact {k rep suf : List Char} (hk : braceFree k = true)
    (hsuf : braceFree suf = true) :
    ∀ (pre : List Char) (fuel : Nat), braceFree pre = true →
      (pre ++ ('{' :: (k ++ ['}'])) ++ suf).length ≤ fuel →
      replaceAllAux ('{' :: (k ++ ['}'])) rep fuel
          (pre ++ ('{' :: (k ++ ['}'])) ++ suf)
        = pre ++ rep ++ suf := by
  intro pre
  induction pre with
  | nil =>
    intro fuel _ hfuel
    simp only [List.nil_append] at hfuel ⊢
    cases fuel with
    | zero => simp at hfuel
    | succ n =>
      have hp : ('{' :: (k ++ ['}'])).isPrefixOf ('{' :: ((k ++ ['}']) ++ suf)) = true :=
        ipo_append ('{' :: (k ++ ['}'])) suf
      have hdrop : List.drop (('{' :: (k ++ ['}'])).length - 1) ((k ++ ['}']) ++ suf)
          = suf := by
        simpa using dropLenAppend (k ++ ['}']) suf
      show replaceAllAux ('{' :: (k ++ ['}'])) rep (n + 1)
          ('{' :: ((k ++ ['}']) ++ suf)) = rep ++ suf
      rw [show replaceAllAux ('{' :: (k ++ ['}'])) rep (n + 1)
            ('{' :: ((k ++ ['}']) ++ suf))
          = rep ++ replaceAllAux ('{' :: (k ++ ['}'])) rep n
              (List.drop (('{' :: (k ++ ['}'])).length - 1) ((k ++ ['}']) ++ suf))
          from by simp [replaceAllAux, hp]]
      rw [hdrop, replaceAllAux_id _ rep n suf (containsSub_lb_false hsuf)]
  | cons c p ih =>
    intro fuel hpre hfuel
    have hc := braceFree_mem hpre (List.mem_cons_self c p)
    cases fuel with
    | zero => simp at hfuel
    | succ n =>
      have hnp : ('{' :: (k ++ ['}'])).isPrefixOf
          (c :: (p ++ ('{' :: (k ++ ['}'])) ++ suf)) = false := by
        simp [List.isPrefixOf, beq_eq_false_iff_ne.mpr (Ne.symm hc.1)]
      have hfn : (p ++ ('{' :: (k ++ ['}'])) ++ suf).length ≤ n := by
        simp only [List.cons_append, List.length_cons, List.length_append] at hfuel ⊢
        omega
      show replaceAllAux ('{' :: (k ++ ['}'])) rep (n + 1)
          (c :: (p ++ ('{' :: (k ++ ['}'])) ++ suf)) = c :: (p ++ rep ++ suf)
      rw [replaceAllAux_cons_neg _ _ _ _ _ hnp]
      rw [ih n (braceFree_tail hpre) hfn]

theorem dropAfterRB_some_length :
    ∀ {s suf : List Char}, dropAfterRB s = some suf → suf.length < s.length := by
  intro s
  induction s with
  | nil => intro suf h; cases h
  | cons c rest ih =>
    intro suf h
    by_cases hc : c = '}'
    · rw [show dropAfterRB (c :: rest) = some rest from by simp [dropAfterRB, hc]] at h
      cases h
      simp
    · rw [show dropAfterRB (c :: rest) = dropAfterRB rest from by
        simp [dropAfterRB, beq_eq_false_iff_ne.mpr hc]] at h
      exact Nat.lt_trans (ih h) (by simp)

theorem dropAfterRB_none_not_mem :
    ∀ {s : List Char}, dropAfterRB s = none → '}' ∉ s := by
  intro s
  induction s with
  | nil => intro _ hm; cases hm
  | cons c rest ih =>
    intro h hm
    by_cases hc : c = '}'
    · rw [show dropAfterRB (c :: rest) = some rest from by simp [dropAfterRB, hc]] at h
      cases h
    · rw [show dropAfterRB (c :: rest) = dropAfterRB rest from by
        simp [dropAfterRB, beq_eq_false_iff_ne.mpr hc]] at h
      rcases List.mem_cons.mp hm with h1 | h1
      · exact hc h1.symm
      · exact ih h h1

theorem hbt_false_of_no_rb : ∀ {s : List Char}, '}' ∉ s → hasBracedToken s = false := by
  intro s
  induction s with
  | nil => intro _; rfl
  | cons c rest ih =>
    intro h
    simp only [List.mem_cons, not_or] at h
    simp only [hasBracedToken, ih h.2, Bool.or_false, Bool.and_eq_false_iff]
    right
    simpa using h.2

theorem hbt_removeBracedAux :
    ∀ (fuel : Nat) (s : List Char), s.length ≤ fuel →
      hasBracedToken (removeBracedAux fuel s) = false := by
  intro fuel
  induction fuel with
  | zero =>
    intro s h
    cases s with
    | nil => rfl
    | cons c r => simp at h
  | succ n ih =>
    intro s h
    cases s with
    | nil => rfl
    | cons c rest =>
      by_cases hc : c = '{'
      · cases hd : dropAfterRB rest with
        | some suf =>
          have hlen : suf.length ≤ n := by
            have hdl := dropAfterRB_some_length hd
            simp only [List.length_cons] at h
            omega
          rw [show removeBracedAux (n + 1) (c :: rest) = removeBracedAux n suf from by
            simp [removeBracedAux, hc, hd]]
          exact ih suf hlen
        | none =>
          have hnm : '}' ∉ rest := dropAfterRB_none_not_mem hd
          have hbt : hasBracedToken rest = false := hbt_false_of_no_rb hnm
          rw [show removeBracedAux (n + 1) (c :: rest) = c :: removeBracedAux n rest from by
            simp [removeBracedAux, hc, hd]]
          rw [removeBracedAux_id n rest hbt]
          simp only [hasBracedToken, hbt, Bool.or_false, Bool.and_eq_false_iff]
          right
          simpa using hnm
      · rw [show removeBracedAux (n + 1) (c :: rest) = c :: removeBracedAux n rest from by
          simp [removeBracedAux, beq_eq_false_iff_ne.mpr hc]]
        have ihr := ih rest (by simp only [List.length_cons] at h; omega)
        simp [hasBracedToken, ihr, beq_eq_false_iff_ne.mpr hc]

theorem hbt_removeBraced (s : List Char) :
    hasBracedToken (removeBraced s) = false :=
  hbt_removeBracedAux s.length s (Nat.le_refl _)

theorem hbt_substituteEnv (env : List (List Char × List Char)) (val : List Char) :
    hasBracedToken (substitute_env env val) = false :=
  hbt_removeBraced _

theorem foldl_substStep_skip (env : List (List Char × List Char)) (v : List Char)
    (h : ∀ kv ∈ env, containsSub ('{' :: (kv.1 ++ ['}'])) v = false) :
    List.foldl substStep v env = v := by
  induction env with
  | nil => rfl
  | cons kv tl ih =>
    have hstep : substStep v kv = v := by simp [substStep, h kv (by simp)]
    rw [List.foldl_cons, hstep]
    exact ih (fun x hx => h x (by simp [hx]))

theorem substituteEnv_replacement
    (env1 env2 : List (List Char × List Char)) (k v pre suf : List Char)
    (hk : braceFree k = true) (hv : braceFree v = true)
    (hpre : braceFree pre = true) (hsuf : braceFree suf = true)
    (hkeys : ∀ kv ∈ env1, kv.1 ≠ k)
    (hloc : containsSub localEnvPat (pre ++ ('{' :: (k ++ ['}'])) ++ suf) = false) :
    substitute_env (env1 ++ (k, v) :: env2) (pre ++ ('{' :: (k ++ ['}'])) ++ suf)
      = pre ++ v ++ suf := by
  show removeBraced (List.foldl substStep
      (replaceAll localEnvPat ['{'] (pre ++ ('{' :: (k ++ ['}'])) ++ suf))
      (env1 ++ (k, v) :: env2)) = pre ++ v ++ suf
  rw [replaceAll_id _ _ _ hloc, List.foldl_append]
  rw [foldl_substStep_skip env1 _
    (fun kv hkv => containsSub_other_key hpre hk hsuf (hkeys kv hkv))]
  rw [List.foldl_cons]
  have hguard : containsSub ('{' :: (k ++ ['}']))
      (pre ++ ('{' :: (k ++ ['}'])) ++ suf) = true := by
    have hco := containsSub_occurrence ('{' :: (k ++ ['}'])) pre suf
    simpa [List.append_assoc] using hco
  have hrepl : replaceAll ('{' :: (k ++ ['}'])) v
      (pre ++ ('{' :: (k ++ ['}'])) ++ suf) = pre ++ v ++ suf := by
    show (if ('{' :: (k ++ ['}'])).isEmpty then _ else _) = _
    rw [if_neg (by simp)]
    exact replaceAllAux_exact hk hsuf pre _ hpre (Nat.le_refl _)
  have hstep : substStep (pre ++ ('{' :: (k ++ ['}'])) ++ suf) ((k, v))
      = pre ++ v ++ suf := by
    show (if containsSub ('{' :: (k ++ ['}'])) _ then _ else _) = _
    rw [if_pos (by exact hguard), hrepl]
  rw [hstep]
  have hbf : braceFree (pre ++ v ++ suf) = true := by
    simp only [braceFree] at hpre hv hsuf ⊢
    simp [List.all_append, hpre, hv, hsuf]
  rw [foldl_substStep_id env2 _ (hbt_false_of_braceFree hbf)]
  exact removeBraced_id _ (hbt_false_of_braceFree hbf)

/-- Claim C5: for every string with no variable-reference syntax — no
occurrence of the `${localEnv:` prefix token and no bracketed name token
(no opening brace followed by a closing brace) — `substitute_env` returns its
input unchanged for every environment; in particular it is idempotent on such
strings. -/
theorem substitute_env_identity_no_syntax :
    ∀ (env : List (List Char × List Char)) (val : List Char),
      containsSub localEnvPat val = false → hasBracedToken val = false →
      substitute_env env val = val
      ∧ substitute_env env (substitute_env env val) = substitute_env env val := by
  intro env val h1 h2
  have hid := substituteEnv_id env val h1 h2
  exact ⟨hid, by simp [hid]⟩

/-- Witness for C5 at a concrete input. -/
theorem substitute_env_identity_witness :
    substitute_env [("HOME".data, "/root".data)] "plain text".data
      = "plain text".data
    ∧ substitute_env [("HOME".data, "/root".data)]
        (substitute_env [("HOME".data, "/root".data)] "plain text".data)
      = substitute_env [("HOME".data, "/root".data)] "plain text".data :=
  substitute_env_identity_no_syntax [("HOME".data, "/root".data)]
    "plain text".data (by decide) (by decide)

/-- Claim C6 is false as stated: with the environment defining `A` as the
single character `\x7b`, the input `\x7bA\x7dx\x7d` contains a reference to
the defined variable `A`, yet `substitute_env` returns the empty string — the
variable's exact value does not occur in the output, because the substituted
value re-forms a bracketed token that the final catch-all removal pass
deletes. -/
theorem substitute_env_value_lost :
    containsSub ('{' :: ("A".data ++ ['}'])) ('{' :: 'A' :: '}' :: 'x' :: ['}']) = true
    ∧ substitute_env [("A".data, ['{'])] ('{' :: 'A' :: '}' :: 'x' :: ['}']) = []
    ∧ containsSub ['{'] [] = false := by decide

/-- Claim C6 (amended): if the input contains a bracketed reference to a
variable defined in the environment, and the key, its value, and the text
around the reference are free of brace characters, no earlier environment
entry shares the key, and the input contains no `${localEnv:` token, then
`substitute_env` replaces the reference with the variable's exact current
value and leaves the surrounding text intact; and for every environment and
every input string the output contains no bracket-delimited remnant. -/
theorem substitute_env_defined_replacement :
    (∀ (env1 env2 : List (List Char × List Char)) (k v pre suf : List Char),
      braceFree k = true → braceFree v = true →
      braceFree pre = true → braceFree suf = true →
      (∀ kv ∈ env1, kv.1 ≠ k) →
      containsSub localEnvPat (pre ++ ('{' :: (k ++ ['}'])) ++ suf) = false →
      substitute_env (env1 ++ (k, v) :: env2) (pre ++ ('{' :: (k ++ ['}'])) ++ suf)
        = pre ++ v ++ suf)
    ∧ (∀ (env : List (List Char × List Char)) (val : List Char),
        hasBracedToken (substitute_env env val) = false) :=
  ⟨fun env1 env2 k v pre suf hk hv hpre hsuf hkeys hloc =>
     substituteEnv_replacement env1 env2 k v pre suf hk hv hpre hsuf hkeys hloc,
   fun env val => hbt_substituteEnv env val⟩

/-- Witness for C6 at a concrete input: `dir=\x7bHOME\x7d/x` with `HOME`
defined as `/root` resolves to `dir=/root/x`. -/
theorem substitute_env_defined_replacement_witness :
    substitute_env [("PATH".data, "/bin".data), ("HOME".data, "/root".data)]
        ("dir=".data ++ ('{' :: ("HOME".data ++ ['}'])) ++ "/x".data)
      = "dir=".data ++ "/root".data ++ "/x".data :=
  substitute_env_defined_replacement.1 [("PATH".data, "/bin".data)] []
    "HOME".data "/root".data "dir=".data "/x".data
    (by decide) (by decide) (by decide) (by decide) (by decide) (by decide)

/-- Claim C1 is false as stated: none of the entries of
`["--memory", "2g", "--cpus", "1"]` contains a space character, so the
coalescing loop rewrites nothing; the resolved run arguments are the input
itself, not `["--memory=2g", "--cpus=1"]`. -/
theorem runArgs_example_not_coalesced :
    runArgsResolve [] ["--memory".data, "2g".data, "--cpus".data, "1".data]
      = ["--memory".data, "2g".data, "--cpus".data, "1".data]
    ∧ ["--memory".data, "2g".data, "--cpus".data, "1".data]
      ≠ ["--memory=2g".data, "--cpus=1".data] := by decide

/-- Claim C1 (amended): for `runArgs = ["--memory", "2g", "--cpus", "1"]` the
coalescing step leaves the list unchanged — no entry contains a space, so no
entry is merged into its predecessor, no slot is emptied, and the resolved
run arguments equal the input for every host environment. -/
theorem runArgs_example_unchanged :
    ∀ (env : List (List Char × List Char)),
      runArgsResolve env ["--memory".data, "2g".data, "--cpus".data, "1".data]
        = ["--memory".data, "2g".data, "--cpus".data, "1".data] := by
  intro env
  unfold runArgsResolve
  rw [show coalesce ["--memory".data, "2g".data, "--cpus".data, "1".data]
      = ["--memory".data, "2g".data, "--cpus".data, "1".data] from by decide]
  rw [List.map_cons, List.map_cons, List.map_cons, List.map_cons, List.map_nil]
  rw [substituteEnv_id env "--memory".data (by decide) (by decide)]
  rw [substituteEnv_id env "2g".data (by decide) (by decide)]
  rw [substituteEnv_id env "--cpus".data (by decide) (by decide)]
  rw [substituteEnv_id env "1".data (by decide) (by decide)]
  decide

/-- Claim C3: with `runArgs = ["a b", "--x"]` — the very first entry contains
a space — the code raises nothing; `run_args[i-1]` with `i = 0` is Python
negative indexing into the *last* slot, so the loop rewrites the last entry
to `--x=a b`, then (because that entry now contains a space) wraps again and
leaves `["=--x=a b", ""]`, which the empty-slot filter turns into
`["=--x=a b"]`: the argument list is silently corrupted. -/
theorem coalesce_leading_space_corrupts :
    coalesce ["a b".data, "--x".data] = ["=--x=a b".data, []]
    ∧ runArgsResolve [] ["a b".data, "--x".data] = ["=--x=a b".data] := by decide

theorem portArgs_go : ∀ (ports : List Nat) (acc : List (List Char)),
    List.foldl (fun acc p => (acc ++ [['-', 'p']]) ++ [portPair p]) acc ports
      = acc ++ List.foldl (fun acc p => (acc ++ [['-', 'p']]) ++ [portPair p]) [] ports := by
  intro ports
  induction ports with
  | nil => intro acc; simp
  | cons p ps ih =>
    intro acc
    simp only [List.foldl_cons]
    rw [ih ((acc ++ [['-', 'p']]) ++ [portPair p]),
      ih ((([] : List (List Char)) ++ [['-', 'p']]) ++ [portPair p])]
    simp

/-- Claim C9: every `forwardPorts` entry `N` contributes the adjacent pair
`-p` `N:N`, in list order; in particular `[8080, 5432]` yields exactly the
mappings `8080:8080` and `5432:5432` in that order. -/
theorem forward_ports_mapping :
    (∀ (p : Nat) (ps : List Nat),
      portArgs (p :: ps) = ['-', 'p'] :: portPair p :: portArgs ps)
    ∧ portArgs [8080, 5432]
      = [['-', 'p'], "8080:8080".data, ['-', 'p'], "5432:5432".data] := by
  constructor
  · intro p ps
    have hgo := portArgs_go ps ([['-', 'p'], portPair p])
    simpa [portArgs, List.foldl_cons] using hgo
  · decide

theorem pySplit_head (sep : Char) :
    ∀ (s : List Char), ∃ t,
      pySplit sep s = (s.takeWhile (fun c => !(c == sep))) :: t := by
  intro s
  induction s with
  | nil => exact ⟨[], rfl⟩
  | cons c rest ih =>
    obtain ⟨t, ht⟩ := ih
    by_cases hc : c = sep
    · refine ⟨rest.takeWhile (fun c => !(c == sep)) :: t, ?_⟩
      simp [pySplit, ht, hc, List.takeWhile_cons]
    · refine ⟨t, ?_⟩
      simp [pySplit, ht, List.takeWhile_cons, beq_eq_false_iff_ne.mpr hc]

/-- Claim C10: `strip_latest` returns its input unchanged when the input does
not end in `:latest`; when it does, the result is the prefix before the
*first* colon of the whole reference — so `host:5000/img:latest` is truncated
to `host`, not merely stripped of the `:latest` suffix. -/
theorem strip_latest_spec :
    (∀ tag : List Char, (":latest".data).isSuffixOf tag = false →
      strip_latest tag = tag)
    ∧ (∀ tag : List Char, (":latest".data).isSuffixOf tag = true →
      strip_latest tag = tag.takeWhile (fun c => !(c == ':')))
    ∧ strip_latest "host:5000/img:latest".data = "host".data := by
  refine ⟨?_, ?_, ?_⟩
  · intro tag h
    simp [strip_latest, h]
  · intro tag h
    obtain ⟨t, ht⟩ := pySplit_head ':' tag
    simp [strip_latest, h, ht]
  · decide

/-- Witness for C10 at concrete inputs of both kinds. -/
theorem strip_latest_spec_witness :
    strip_latest "img:latest".data = "img".data
    ∧ strip_latest "ubuntu:22.04".data = "ubuntu:22.04".data :=
  ⟨(strip_latest_spec.2.1 "img:latest".data (by decide)).trans (by decide),
   strip_latest_spec.1 "ubuntu:22.04".data (by decide)⟩

/-- Claim C8: when the configuration has neither a `dockerFile` key nor an
`image` key, resolution fails with the target-unresolved error and the
subprocess trace is empty — no image listing, no build, no run was spawned
before the failure. -/
theorem no_target_unresolved_no_subprocess :
    ∀ (fileBytes : List Nat) (existing : List (List Char)) (argstr : List Char),
      mainPlan none none fileBytes existing argstr
        = ([], some MainErr.targetUnresolved) := by
  intro fileBytes existing argstr
  rfl

/-- Claim C4: in build-from-file mode, the build subprocess is skipped
exactly when some locally known image reference, normalized by
`strip_latest`, equals the Build Identity; otherwise the build is invoked
with the file, the build-argument fragments and the Build Identity as the
output tag (and the image listing precedes either outcome). -/
theorem build_skipped_iff_tag_known :
    ∀ (df : List Char) (img : Option (List Char)) (fileBytes : List Nat)
      (existing : List (List Char)) (argstr : List Char),
      df ≠ [] →
      ((∃ i ∈ existing, strip_latest i = md5hexdigest fileBytes) →
        mainPlan (some df) img fileBytes existing argstr
          = ([Proc.imageList, Proc.run (md5hexdigest fileBytes)], none))
      ∧ (¬ (∃ i ∈ existing, strip_latest i = md5hexdigest fileBytes) →
        mainPlan (some df) img fileBytes existing argstr
          = ([Proc.imageList,
              Proc.build (md5hexdigest fileBytes) df argstr,
              Proc.run (md5hexdigest fileBytes)], none)) := by
  intro df img fileBytes existing argstr hdf
  have htr : truthy (some df) = true := by
    cases df with
    | nil => exact absurd rfl hdf
    | cons c cs => rfl
  constructor
  · intro hex
    have hmem : (existing.map strip_latest).contains (md5hexdigest fileBytes)
        = true := by
      simpa [List.mem_map] using hex
    simp only [mainPlan, htr, hmem]
    simp
  · intro hex
    have hmem : (existing.map strip_latest).contains (md5hexdigest fileBytes)
        = false := by
      simpa [List.mem_map] using hex
    simp only [mainPlan, htr, hmem]
    simp

/-- Witness for C4: an empty local image store forces a build whose tag, file
and argument fragment are exactly the resolved ones. -/
theorem build_skipped_iff_tag_known_witness :
    mainPlan (some "Dockerfile".data) none [] [] []
      = ([Proc.imageList,
          Proc.build (md5hexdigest []) "Dockerfile".data [],
          Proc.run (md5hexdigest [])], none) :=
  (build_skipped_iff_tag_known "Dockerfile".data none [] [] [] (by decide)).2
    (by simp)

/-- Claim C2 is false as stated: a child process that exits with code 7
yields invocation exit status 0, not 7, because the result of
`process.wait()` is never read. -/
theorem invocationExit_not_child_exit :
    invocationExit 7 = 0 ∧ (7 : Int) ≠ 0 := by decide

/-- Claim C2 (amended): for every run in which the container child process is
spawned and waited on, the program waits for the child and then exits with
status 0 regardless of the child's exit code — the code is discarded, not
propagated. -/
theorem invocationExit_always_zero : ∀ c : Int, invocationExit c = 0 :=
  fun _ => rfl

theorem mod_mul_decomp (x a m : Nat) :
    x % (a * m) = x % a + a * (x / a % m) := by
  have h1 : x % (a * m) % a = x % a := Nat.mod_mod_of_dvd x ⟨m, rfl⟩
  have h2 : x % (a * m) / a = x / a % m := Nat.mod_mul_right_div_self x a m
  have h3 := Nat.div_add_mod (x % (a * m)) a
  rw [h1, h2] at h3
  omega

theorem dec_enc_gen : ∀ (n x : Nat),
    decBytes ((List.range n).map (fun j => x / 256 ^ j % 256)) = x % 256 ^ n := by
  intro n
  induction n with
  | zero => intro x; simp [decBytes, Nat.mod_one]
  | succ m ih =>
    intro x
    rw [List.range_succ_eq_map]
    simp only [List.map_cons, List.map_map, decBytes, List.foldr_cons]
    have hcomp : ((fun j => x / 256 ^ j % 256) ∘ Nat.succ)
        = (fun j => (x / 256) / 256 ^ j % 256) := by
      funext j
      show x / 256 ^ (j + 1) % 256 = x / 256 / 256 ^ j % 256
      rw [Nat.div_div_eq_div_mul]
      congr 2
      rw [pow_succ]
      exact mul_comm _ _
    rw [hcomp]
    have ihx := ih (x / 256)
    simp only [decBytes] at ihx
    rw [ihx]
    rw [show (256 : Nat) ^ (m + 1) = 256 * 256 ^ m from by rw [pow_succ]; exact mul_comm _ _]
    rw [mod_mul_decomp x 256 (256 ^ m)]
    simp

theorem encBytes_inj {x y : Nat} (hx : x < 256 ^ 17) (hy : y < 256 ^ 17)
    (h : encBytes x = encBytes y) : x = y := by
  have hdx := dec_enc_gen 17 x
  have hdy := dec_enc_gen 17 y
  have hxy : x % 256 ^ 17 = y % 256 ^ 17 := by
    rw [← hdx, ← hdy]
    unfold encBytes at h
    rw [h]
  rwa [Nat.mod_eq_of_lt hx, Nat.mod_eq_of_lt hy] at hxy

/-- Pigeonhole: a 128-bit digest cannot distinguish all 17-byte contents, for
*any* digest function whatsoever — in particular for MD5. -/
theorem hash128_collision (g : List Nat → Fin (2 ^ 128)) :
    ∃ b1 b2 : List Nat, b1 ≠ b2 ∧ (∀ x ∈ b1, x < 256) ∧ (∀ x ∈ b2, x < 256)
      ∧ g b1 = g b2 := by
  have hcard : Fintype.card (Fin (2 ^ 128)) < Fintype.card (Fin (256 ^ 17)) := by
    simp only [Fintype.card_fin]
    norm_num
  obtain ⟨a, b, hab, hg⟩ :=
    Fintype.exists_ne_map_eq_of_card_lt
      (fun i : Fin (256 ^ 17) => g (encBytes i.val)) hcard
  refine ⟨encBytes a.val, encBytes b.val, ?_, ?_, ?_, hg⟩
  · intro he
    exact hab (Fin.ext (encBytes_inj a.isLt b.isLt he))
  · intro x hx
    obtain ⟨j, hj, hje⟩ := List.mem_map.mp hx
    exact hje ▸ Nat.mod_lt _ (by norm_num)
  · intro x hx
    obtain ⟨j, hj, hje⟩ := List.mem_map.mp hx
    exact hje ▸ Nat.mod_lt _ (by norm_num)

/-- Claim C7 is false as stated ("the Build Identity changes if and only if
the file's bytes change"): the identity carries only 128 bits, so by counting
there exist two distinct byte contents — built from valid bytes below 256 —
with the very same Build Identity. -/
theorem build_identity_collision_exists :
    ∃ b1 b2 : List Nat, b1 ≠ b2 ∧ (∀ x ∈ b1, x < 256) ∧ (∀ x ∈ b2, x < 256)
      ∧ md5hexdigest b1 = md5hexdigest b2 := by
  obtain ⟨b1, b2, hne, h1, h2, hg⟩ := hash128_collision md5bits
  exact ⟨b1, b2, hne, h1, h2, congrArg hexdigest32 hg⟩

/-- Claim C7 (amended): the Build Identity is deterministic — it is a
function of the build file's bytes alone, so equal bytes give the same
identity on every invocation, and the identity changes only if the bytes
change; the digest always consists of exactly 32 (hexadecimal) characters. -/
theorem build_identity_deterministic :
    (∀ b1 b2 : List Nat, b1 = b2 → md5hexdigest b1 = md5hexdigest b2)
    ∧ (∀ b : List Nat, (md5hexdigest b).length = 32) := by
  constructor
  · intro b1 b2 h
    rw [h]
  · intro b
    simp [md5hexdigest, hexdigest32]

/-- Witness for C7 at a concrete byte content. -/
theorem build_identity_deterministic_witness :
    md5hexdigest [1, 2, 3] = md5hexdigest [1, 2, 3]
    ∧ (md5hexdigest [1, 2, 3]).length = 32 :=
  ⟨build_identity_deterministic.1 [1, 2, 3] [1, 2, 3] rfl,
   build_identity_deterministic.2 [1, 2, 3]⟩
